import Mathlib

/- Shallow embedding of the event-segmentation and navigation core of
   src/evd.py (larnd-display).  Packet records keep the fields the claims
   depend on; numpy arrays become lists; the lru_cache memoisation is dropped
   (the cached function is pure); h5py dataset reads become list lookups.
   Implicit Python None returns, numpy index errors and TypeError crashes are
   made explicit in the result types. -/

/-- One record of the packets table; src/evd.py reads the fields packet_type,
timestamp and dataword of each packet in the functions modelled here. -/
structure Packet where
  packet_type : ℕ
  timestamp : ℤ
  dataword : ℕ
deriving DecidableEq, Repr

/-- One open HDF5 file as the segmenter sees it: the packets table and the
optional light_trig table (only the ts_sync column is read by
get_event_dividers). -/
structure DataFile where
  packets : List Packet
  light_trig : Option (List ℤ)
deriving DecidableEq, Repr

/-- EVENT_BUFFER constant, src/evd.py line 43. -/
def EVENT_BUFFER : ℤ := 2000

/-- DEFAULT_COOLNESS_THRESHOLD constant, src/evd.py line 44. -/
def DEFAULT_COOLNESS_THRESHOLD : ℤ := 20000

/-- Indices of the trigger packets, np.nonzero(packet_type == 7)[0]
(src/evd.py lines 608 and 628). -/
def triggerIndices (packets : List Packet) : List ℕ :=
  (List.range packets.length).filter
    (fun i => (packets.getD i ⟨0, 0, 0⟩).packet_type == 7)

/-- Timestamps of the trigger packets, packets[trigger_mask]["timestamp"]
(src/evd.py line 613). -/
def trigTimestamps (packets : List Packet) : List ℤ :=
  (triggerIndices packets).map (fun i => (packets.getD i ⟨0, 0, 0⟩).timestamp)

/-- Python slice packets[s:e] for non-negative bounds, clamping past the end
like numpy and h5py do. -/
def pySlice (packets : List Packet) (s e : ℕ) : List Packet :=
  (packets.drop s).take (e - s)

/-- Numpy scalar indexing into a 1-d integer array: a non-negative index is a
plain lookup, an index in [-len, -1] wraps from the end, anything else raises
IndexError (modelled as none). -/
def npIndex (l : List ℕ) (i : ℤ) : Option ℕ :=
  if 0 ≤ i ∧ i < (l.length : ℤ) then some (l.getD i.toNat 0)
  else if -(l.length : ℤ) ≤ i ∧ i < 0 then some (l.getD ((l.length : ℤ) + i).toNat 0)
  else none

/-- Boolean-mask selection arr[mask] as used with np.r_[True, merge_mask]
(src/evd.py lines 623-624); the callers always supply a mask of the same
length as the array. -/
def maskFilter {α : Type} (l : List α) (mask : List Bool) : List α :=
  (l.zip mask).filterMap (fun xm => if xm.2 then some xm.1 else none)

/-- np.intersect1d ar1 ar2 with return_indices=True: the sorted unique values
common to both arrays, each paired with the index of its first occurrence in
ar1 and in ar2 (src/evd.py lines 611-615). -/
def intersect1d (ar1 ar2 : List ℤ) : List (ℤ × ℕ × ℕ) :=
  (((ar1.filter (fun v => decide (v ∈ ar2))).dedup).insertionSort (· ≤ ·)).map
    (fun v => (v, ar1.findIdx (fun x => x == v), ar2.findIdx (fun x => x == v)))

/-- Result of get_event_dividers: pyNone is the implicit Python None returned
when no trigger packet exists; pyError is an uncaught exception inside the
function (the length-1 boolean mask np.r_[True] applied to an empty index
array when the timestamp intersection is empty); ok carries the packet-side
and light-side divider arrays. -/
inductive SegResult where
  | pyNone : SegResult
  | pyError : SegResult
  | ok : List ℕ → List ℕ → SegResult
deriving DecidableEq, Repr

/-- Matched (ts_sync, light index, packet index) triples of the light branch,
sorted by light index: np.intersect1d of ts_sync with the trigger timestamps
(src/evd.py lines 611-615), the packet-side intersection indices mapped back
to full packet indices (line 616), then np.argsort(il) applied to all three
arrays (lines 617-620), modelled as one stable sort of the triples. -/
def sortedTriples (packets : List Packet) (lts : List ℤ) : List (ℤ × ℕ × ℕ) :=
  ((intersect1d lts (trigTimestamps packets)).map
    (fun t => (t.1, t.2.1, (triggerIndices packets).getD t.2.2 0))).insertionSort
    (fun a b => a.2.1 ≤ b.2.1)

/-- Merge mask np.r_[True, np.diff(ts.astype(int)) > 200] of the light branch
(src/evd.py lines 622-624). -/
def keepMask (ts : List ℤ) : List Bool :=
  true :: (ts.zip ts.tail).map (fun ab => decide (ab.2 - ab.1 > 200))

/-- Light branch of get_event_dividers (src/evd.py lines 610-626): keep the
sorted matches whose timestamp is more than 200 ticks after the previous one
(the first always stays), then append the two sentinel lengths.  An empty
match list makes the boolean mask np.r_[True] one longer than the arrays it
indexes, a numpy IndexError. -/
def lightDividers (packets : List Packet) (lts : List ℤ) : SegResult :=
  match sortedTriples packets lts with
  | [] => SegResult.pyError
  | x :: xs =>
    SegResult.ok
      (maskFilter ((x :: xs).map (fun t => t.2.2))
          (keepMask ((x :: xs).map (fun t => t.1))) ++ [packets.length])
      (maskFilter ((x :: xs).map (fun t => t.2.1))
          (keepMask ((x :: xs).map (fun t => t.1))) ++ [lts.length])

/-- Gap filter of the no-light branch,
trigger_packets[:-1][np.diff(trigger_packets) != 1] (src/evd.py line 629). -/
def gapKeep (tp : List ℕ) : List ℕ :=
  (tp.zip tp.tail).filterMap (fun ab => if ab.2 ≠ ab.1 + 1 then some ab.1 else none)

/-- No-light branch of get_event_dividers (src/evd.py lines 628-631). -/
def noLightDividers (packets : List Packet) : List ℕ :=
  let tp := triggerIndices packets
  gapKeep tp ++ [tp.getLastD 0, packets.length]

/-- get_event_dividers (src/evd.py lines 604-633) without the lru_cache and
with the file handle replaced by the DataFile record; the function falls
through to the implicit None when no trigger packet exists. -/
def get_event_dividers (f : DataFile) : SegResult :=
  if triggerIndices f.packets = [] then SegResult.pyNone
  else
    match f.light_trig with
    | some lts => lightDividers f.packets lts
    | none => SegResult.ok (noLightDividers f.packets) []

/-- update_total_events (src/evd.py lines 407-423).  The tuple unpacking on
line 414 raises TypeError when get_event_dividers returned None (and any
exception from the callee propagates), modelled by the error result. -/
def update_total_events (f : DataFile) : Except Unit ℕ :=
  match get_event_dividers f with
  | SegResult.ok ic _ => Except.ok (if ic.length < 2 then 0 else ic.length - 2)
  | _ => Except.error ()

/-- Packet selection of draw_event (src/evd.py lines 69-77): look up the
event's packet range in the divider array (numpy indexing, so negative ids
wrap), read the first packet's timestamp as the trigger reference (h5py
raises IndexError when that index is past the end), slice, and keep the
packets within EVENT_BUFFER ticks of the reference.  Returns the raw range
and the kept packets, or none when an IndexError escapes. -/
def draw_event (packets : List Packet) (event_dividers : List ℕ) (event_id : ℤ) :
    Option (ℕ × ℕ × List Packet) :=
  match npIndex event_dividers event_id, npIndex event_dividers (event_id + 1) with
  | some start_packet, some end_packet =>
    match packets.get? start_packet with
    | some first => some (start_packet, end_packet,
        (pySlice packets start_packet end_packet).filter
          (fun p => decide (p.timestamp - first.timestamp < EVENT_BUFFER)))
    | none => none
  | _, _ => none

/-- is_cool_event (src/evd.py lines 472-479). -/
def is_cool_event (packets : List Packet) (threshold : Option ℤ) : Bool :=
  let th := threshold.getD DEFAULT_COOLNESS_THRESHOLD
  let data_packets := packets.filter (fun p => p.packet_type == 0)
  let total_adc : ℕ := (data_packets.map Packet.dataword).sum
  decide ((total_adc : ℤ) > th)

/-- Python range(start, stop, step) for the two step values ±1 that
find_cool_event uses (src/evd.py line 489). -/
def pyRange (start stop step : ℤ) : List ℤ :=
  if step = 1 then (List.range (stop - start).toNat).map (fun k : ℕ => start + (k : ℤ))
  else if step = -1 then (List.range (start - stop).toNat).map (fun k : ℕ => start - (k : ℤ))
  else []

/-- Loop of find_cool_event (src/evd.py lines 489-493): try each candidate id
in order and return the first whose packet slice is cool; an out-of-bounds
divider lookup raises IndexError (error). -/
def findLoop (packets : List Packet) (event_dividers : List ℕ) (threshold : Option ℤ) :
    List ℤ → Except Unit (Option ℤ)
  | [] => Except.ok none
  | i :: rest =>
    match npIndex event_dividers i, npIndex event_dividers (i + 1) with
    | some s, some e =>
      if is_cool_event (pySlice packets s e) threshold then Except.ok (some i)
      else findLoop packets event_dividers threshold rest
    | _, _ => Except.error ()

/-- find_cool_event (src/evd.py lines 482-494).  The segmentation result is a
parameter (the Python recomputes it from the cache); a None segmentation
again crashes at the tuple unpacking, and the no_update fallthrough is
modelled as ok none. -/
def find_cool_event (packets : List Packet) (seg : SegResult) (event_id : ℤ)
    (threshold : Option ℤ) (direction : ℤ) : Except Unit (Option ℤ) :=
  match seg with
  | SegResult.ok event_dividers _ =>
    findLoop packets event_dividers threshold
      (pyRange (event_id + direction)
        (if direction = -1 then -1 else (event_dividers.length : ℤ) - 1) direction)
  | _ => Except.error ()

/-- Specification-side measuring device: the number of half-open spans
[dividers[j], dividers[j+1]) of consecutive divider entries that contain t. -/
def coveredCount (dividers : List ℕ) (t : ℕ) : ℕ :=
  match dividers with
  | a :: b :: rest => (if a ≤ t ∧ t < b then 1 else 0) + coveredCount (b :: rest) t
  | _ => 0

/-- Specification-side description of extractEventPackets (spec section 4.2):
the packets whose index lies in [s, e) and whose timestamp is within 2000
ticks of the reference, collected by walking the log with an explicit
index. -/
def specExtract (packets : List Packet) (idx s e : ℕ) (ref : ℤ) : List Packet :=
  match packets with
  | [] => []
  | p :: rest =>
    (if s ≤ idx ∧ idx < e ∧ p.timestamp - ref < 2000 then [p] else []) ++
      specExtract rest (idx + 1) s e ref

/-- Specification-side packetsOf(eventId): the raw packet slice of an event
(spec section 4.2), with plain in-range indexing into the dividers. -/
def packetsOfEvent (packets : List Packet) (dividers : List ℕ) (i : ℕ) : List Packet :=
  pySlice packets (dividers.getD i 0) (dividers.getD (i + 1) 0)

/-- Specification-side findEvent (spec section 4.2): scan event ids from
startEventId + direction toward the array boundary and return the first one
satisfying the coolness predicate, or none. -/
def findEventSpec (packets : List Packet) (dividers : List ℕ) (event_id : ℤ)
    (threshold : Option ℤ) (direction : ℤ) : Option ℤ :=
  (pyRange (event_id + direction)
    (if direction = -1 then -1 else (dividers.length : ℤ) - 1) direction).find?
    (fun i => is_cool_event (packetsOfEvent packets dividers i.toNat) threshold)

/-- Specification-side ADC sum of the coolness predicate: the dataword sum
over the data-type packets, written as a direct recursion. -/
def coolSum : List Packet → ℤ
  | [] => 0
  | p :: rest => (if p.packet_type = 0 then (p.dataword : ℤ) else 0) + coolSum rest

/-- File family for the merge-threshold claim: two trigger packets whose
timestamps are g ticks apart, each followed by one data packet, and a
light_trig table carrying the same two sync timestamps. -/
def mergeFile (g : ℤ) : DataFile :=
  { packets := [⟨7, 1000, 0⟩, ⟨0, 1000, 5⟩, ⟨7, 1000 + g, 0⟩, ⟨0, 1000 + g, 5⟩],
    light_trig := some [1000, 1000 + g] }

-- ### Helper lemmas

theorem getLastD_irrel (l : List ℕ) (h : l ≠ []) (d e : ℕ) :
    List.getLastD l d = List.getLastD l e := by
  cases l with
  | nil => exact absurd rfl h
  | cons a t => simp only [List.getLastD_cons]

theorem getLastD_mem : ∀ (l : List ℕ), l ≠ [] → ∀ d, l.getLastD d ∈ l
  | [], h, _ => absurd rfl h
  | [a], _, d => by simp [List.getLastD_cons]
  | a :: b :: l, _, d => by
    rw [List.getLastD_cons]
    exact List.mem_cons_of_mem a (getLastD_mem (b :: l) (by simp) a)

theorem getLastD_append_singleton (l : List ℕ) (a : ℕ) :
    ∀ d, (l ++ [a]).getLastD d = a := by
  induction l with
  | nil => intro d; rfl
  | cons x xs ih => intro d; rw [List.cons_append, List.getLastD_cons]; exact ih x

theorem triggerIndices_pairwise (packets : List Packet) :
    (triggerIndices packets).Pairwise (· < ·) :=
  List.Pairwise.sublist (List.filter_sublist _) (List.pairwise_lt_range _)

theorem triggerIndices_lt_length (packets : List Packet) :
    ∀ i ∈ triggerIndices packets, i < packets.length := by
  intro i hi
  exact List.mem_range.mp (List.mem_of_mem_filter hi)

theorem gapKeep_cons_cons (a b : ℕ) (rest : List ℕ) :
    gapKeep (a :: b :: rest) =
      (if b ≠ a + 1 then [a] else []) ++ gapKeep (b :: rest) := by
  unfold gapKeep
  rw [List.tail_cons, List.tail_cons, List.zip_cons_cons, List.filterMap_cons]
  by_cases h : b ≠ a + 1
  · simp [h]
  · simp [h]

theorem gapKeep_subset : ∀ (tp : List ℕ), ∀ x ∈ gapKeep tp, x ∈ tp := by
  intro tp x hx
  unfold gapKeep at hx
  obtain ⟨⟨a, b⟩, hab, hx2⟩ := List.mem_filterMap.mp hx
  by_cases hc : b ≠ a + 1
  · rw [if_pos hc] at hx2
    cases hx2
    exact (List.of_mem_zip hab).1
  · rw [if_neg hc] at hx2
    cases hx2

theorem gapKeep_last_pairwise : ∀ (tp : List ℕ), tp.Pairwise (· < ·) → tp ≠ [] →
    (gapKeep tp ++ [tp.getLastD 0]).Pairwise (· < ·)
  | [], _, h => absurd rfl h
  | [a], _, _ => by
    simp [gapKeep]
  | a :: b :: rest, hp, _ => by
    have htail : (gapKeep (b :: rest) ++ [(b :: rest).getLastD 0]).Pairwise (· < ·) :=
      gapKeep_last_pairwise (b :: rest) hp.tail (by simp)
    have hlt : ∀ y ∈ b :: rest, a < y := (List.pairwise_cons.mp hp).1
    rw [List.getLastD_cons, getLastD_irrel (b :: rest) (by simp) a 0,
      gapKeep_cons_cons, List.append_assoc, List.pairwise_append]
    refine ⟨?_, htail, ?_⟩
    · by_cases h : b ≠ a + 1 <;> simp [h]
    · intro x hx y hy
      by_cases h : b ≠ a + 1
    
      · rw [if_pos h] at hx
        simp at hx
        subst hx
        rcases List.mem_append.mp hy with hy1 | hy2
        · exact hlt y (gapKeep_subset _ y hy1)
        · rw [List.mem_singleton] at hy2
          subst hy2
          exact hlt _ (getLastD_mem (b :: rest) (by simp) 0)
      · rw [if_neg h] at hx
        cases hx

theorem noLightDividers_pairwise (packets : List Packet)
    (h : triggerIndices packets ≠ []) :
    (noLightDividers packets).Pairwise (· < ·) := by
  unfold noLightDividers
  have heq :
      gapKeep (triggerIndices packets) ++
          [(triggerIndices packets).getLastD 0, packets.length] =
        (gapKeep (triggerIndices packets) ++ [(triggerIndices packets).getLastD 0]) ++
          [packets.length] := by
    simp
  rw [heq, List.pairwise_append]
  refine ⟨gapKeep_last_pairwise _ (triggerIndices_pairwise packets) h, by simp, ?_⟩
  intro x hx y hy
  rw [List.mem_singleton] at hy
  subst hy
  rcases List.mem_append.mp hx with hx1 | hx2
  · exact triggerIndices_lt_length _ _ (gapKeep_subset _ _ hx1)
  · rw [List.mem_singleton] at hx2
    subst hx2
    exact triggerIndices_lt_length _ _ (getLastD_mem _ h 0)

theorem coveredCount_eq_zero : ∀ (d : List ℕ) (t : ℕ),
    (∀ x ∈ d, t < x) → coveredCount d t = 0
  | [], _, _ => rfl
  | [_], _, _ => rfl
  | a :: b :: rest, t, h => by
    unfold coveredCount
    have hna : ¬(a ≤ t ∧ t < b) := fun hc =>
      absurd hc.1 (Nat.not_le.mpr (h a (by simp)))
    rw [if_neg hna,
      coveredCount_eq_zero (b :: rest) t (fun x hx => h x (List.mem_cons_of_mem a hx))]

theorem coveredCount_eq_one : ∀ (d : List ℕ) (t : ℕ), d.Pairwise (· < ·) →
    d.getD 0 0 ≤ t → t < d.getLastD 0 → coveredCount d t = 1
  | [], t, _, _, h2 => by
    exact absurd h2 (by simp [List.getLastD])
  | [a], t, _, h1, h2 => by
    simp only [List.getD_cons_zero] at h1
    rw [List.getLastD_cons, List.getLastD_nil] at h2
    omega
  | a :: b :: rest, t, hp, h1, h2 => by
    simp only [List.getD_cons_zero] at h1
    rw [List.getLastD_cons, getLastD_irrel (b :: rest) (by simp) a 0] at h2
    have hbrest : ∀ x ∈ b :: rest, b ≤ x := by
      intro x hx
      rcases List.mem_cons.mp hx with hx1 | hx2
      · omega
      · exact Nat.le_of_lt ((List.pairwise_cons.mp hp.tail).1 x hx2)
    unfold coveredCount
    by_cases ht : t < b
    · rw [if_pos ⟨h1, ht⟩,
        coveredCount_eq_zero (b :: rest) t (fun x hx => Nat.lt_of_lt_of_le ht (hbrest x hx))]
    · rw [if_neg (fun hc => ht hc.2),
        coveredCount_eq_one (b :: rest) t hp.tail
          (by simpa using Nat.le_of_not_lt ht) h2]

-- ### Branch lemmas for get_event_dividers

theorem get_event_dividers_noLight (f : DataFile) (hlight : f.light_trig = none)
    (hne : triggerIndices f.packets ≠ []) :
    get_event_dividers f = SegResult.ok (noLightDividers f.packets) [] := by
  unfold get_event_dividers
  rw [if_neg hne, hlight]

theorem maskFilter_nil_left {α : Type} (mask : List Bool) :
    maskFilter ([] : List α) mask = [] := by
  cases mask <;> rfl

theorem maskFilter_cons_cons {α : Type} (a : α) (l : List α) (m : Bool) (mask : List Bool) :
    maskFilter (a :: l) (m :: mask) = (if m then [a] else []) ++ maskFilter l mask := by
  unfold maskFilter
  rw [List.zip_cons_cons, List.filterMap_cons]
  cases m <;> simp

theorem maskFilter_length_eq {α β : Type} :
    ∀ (l1 : List α) (l2 : List β) (mask : List Bool), l1.length = l2.length →
      (maskFilter l1 mask).length = (maskFilter l2 mask).length
  | [], [], _, _ => by simp [maskFilter_nil_left]
  | [], _ :: _, _, h => by simp at h
  | _ :: _, [], _, h => by simp at h
  | _ :: _, _ :: _, [], _ => rfl
  | a :: l1, b :: l2, m :: mask, h => by
    rw [maskFilter_cons_cons, maskFilter_cons_cons, List.length_append, List.length_append,
      maskFilter_length_eq l1 l2 mask (by simpa using h)]
    cases m <;> simp

theorem lightDividers_length (packets : List Packet) (lts : List ℤ) (ic il : List ℕ)
    (hok : lightDividers packets lts = SegResult.ok ic il) :
    ic.length = il.length := by
  unfold lightDividers at hok
  split at hok
  · cases hok
  · rename_i x xs heq
    injection hok with h1 h2
    rw [← h1, ← h2, List.length_append, List.length_append,
      maskFilter_length_eq ((x :: xs).map (fun t => t.2.2))
        ((x :: xs).map (fun t => t.2.1)) (keepMask ((x :: xs).map (fun t => t.1)))
        (by simp)]
    simp

-- ### Claim C1

/-- Claim C1 (counterexample): in the no-light branch, a file whose first two
trigger packets are adjacent (triggers at packet indices 0, 1 and 3 of a
5-packet log) segments to dividers [1, 3, 5]; the log has at least two
triggers, yet trigger index 0 is covered by zero half-open divider spans,
not exactly one. -/
theorem c1_counterexample :
    get_event_dividers ⟨[⟨7, 0, 0⟩, ⟨7, 0, 0⟩, ⟨0, 0, 0⟩, ⟨7, 0, 0⟩, ⟨0, 0, 0⟩], none⟩ =
        SegResult.ok [1, 3, 5] [] ∧
      0 ∈ triggerIndices [⟨7, 0, 0⟩, ⟨7, 0, 0⟩, ⟨0, 0, 0⟩, ⟨7, 0, 0⟩, ⟨0, 0, 0⟩] ∧
      2 ≤ (triggerIndices [⟨7, 0, 0⟩, ⟨7, 0, 0⟩, ⟨0, 0, 0⟩, ⟨7, 0, 0⟩, ⟨0, 0, 0⟩]).length ∧
      coveredCount [1, 3, 5] 0 = 0 := by decide

/-- Claim C1 (amended): for a no-light file with at least two trigger packets,
every trigger index at or above the first divider entry is covered by exactly
one half-open span of consecutive divider entries; triggers of the first
contiguous run other than its last lie below the first divider and are
covered by no span. -/
theorem c1_amended (f : DataFile) (ic il : List ℕ)
    (hlight : f.light_trig = none)
    (htrig : 2 ≤ (triggerIndices f.packets).length)
    (hok : get_event_dividers f = SegResult.ok ic il) :
    ∀ t ∈ triggerIndices f.packets, ic.getD 0 0 ≤ t → coveredCount ic t = 1 := by
  have hne : triggerIndices f.packets ≠ [] := by
    intro hc
    rw [hc] at htrig
    simp at htrig
  rw [get_event_dividers_noLight f hlight hne] at hok
  injection hok with h1 h2
  subst h1
  intro t ht hhead
  have hsplit :
      gapKeep (triggerIndices f.packets) ++
          [(triggerIndices f.packets).getLastD 0, f.packets.length] =
        (gapKeep (triggerIndices f.packets) ++ [(triggerIndices f.packets).getLastD 0]) ++
          [f.packets.length] := by
    simp
  have hlast : (noLightDividers f.packets).getLastD 0 = f.packets.length := by
    unfold noLightDividers
    rw [hsplit]
    exact getLastD_append_singleton _ _ 0
  exact coveredCount_eq_one _ t (noLightDividers_pairwise f.packets hne) hhead
    (by rw [hlast]; exact triggerIndices_lt_length f.packets t ht)

/-- Claim C1 (witness): the amended theorem applied to the no-light file with
triggers at packet indices 0 and 2: dividers [0, 2, 3] and trigger 2 is
covered by exactly one span. -/
theorem c1_amended_witness : coveredCount [0, 2, 3] 2 = 1 :=
  c1_amended ⟨[⟨7, 0, 0⟩, ⟨0, 0, 0⟩, ⟨7, 0, 0⟩], none⟩ [0, 2, 3] [] rfl (by decide)
    (by decide) 2 (by decide) (by decide)

-- ### Claim C2

/-- Claim C2 (counterexample): a light-data file whose trigger-packet
timestamps decrease with packet index (packet timestamps [1000, 100], light
ts_sync [100, 1000]) segments successfully, yet the returned EventBoundaries
[1, 0, 2] is not strictly increasing. -/
theorem c2_counterexample :
    get_event_dividers ⟨[⟨7, 1000, 0⟩, ⟨7, 100, 0⟩], some [100, 1000]⟩ =
        SegResult.ok [1, 0, 2] [0, 1, 2] ∧
      ¬ ([1, 0, 2] : List ℕ).Pairwise (· < ·) := by decide

/-- Claim C2 (amended): whenever segmentation succeeds, the no-light branch
returns a strictly increasing EventBoundaries together with an empty
LightBoundaries, and the light branch always returns boundary sequences of
equal length (EventBoundaries need not be increasing there). -/
theorem c2_amended (f : DataFile) (ic il : List ℕ)
    (hok : get_event_dividers f = SegResult.ok ic il) :
    (f.light_trig = none → ic.Pairwise (· < ·) ∧ il = []) ∧
      (∀ lts, f.light_trig = some lts → ic.length = il.length) := by
  have hne : triggerIndices f.packets ≠ [] := by
    intro hc
    unfold get_event_dividers at hok
    rw [if_pos hc] at hok
    cases hok
  constructor
  · intro hlight
    rw [get_event_dividers_noLight f hlight hne] at hok
    injection hok with h1 h2
    exact ⟨h1 ▸ noLightDividers_pairwise f.packets hne, h2.symm⟩
  · intro lts hlight
    unfold get_event_dividers at hok
    rw [if_neg hne, hlight] at hok
    exact lightDividers_length f.packets lts ic il hok

/-- Claim C2 (witness): the amended theorem applied to a one-trigger no-light
file (dividers [0, 2]) and to a two-light-trigger file (both boundary lists
of length 3). -/
theorem c2_amended_witness :
    (([0, 2] : List ℕ).Pairwise (· < ·) ∧ ([] : List ℕ) = []) ∧
      ([0, 1, 2] : List ℕ).length = ([0, 1, 2] : List ℕ).length := by
  constructor
  · exact (c2_amended ⟨[⟨7, 5, 0⟩, ⟨0, 6, 1⟩], none⟩ [0, 2] [] (by decide)).1 rfl
  · exact (c2_amended ⟨[⟨7, 0, 0⟩, ⟨7, 300, 0⟩], some [0, 300]⟩ [0, 1, 2] [0, 1, 2]
      (by decide)).2 [0, 300] rfl

-- ### Claim C3

/-- Claim C3 (code bug): on a file whose packets contain no trigger packet,
get_event_dividers returns the bare Python None, and the consumer
update_total_events crashes with a TypeError at the tuple unpacking of that
None instead of reporting zero events. -/
theorem c3_theorem :
    get_event_dividers ⟨[⟨0, 0, 0⟩], none⟩ = SegResult.pyNone ∧
      update_total_events ⟨[⟨0, 0, 0⟩], none⟩ = Except.error () :=
  ⟨by decide, rfl⟩

-- ### Claim C4

/-- Claim C4 (counterexample): a no-light log with exactly one trigger packet
(at index 1 of a 3-packet log) segments to the boundary table [1, 3], which
has exactly 2 entries, not fewer than 2. -/
theorem c4_counterexample :
    get_event_dividers ⟨[⟨0, 0, 0⟩, ⟨7, 0, 0⟩, ⟨0, 0, 0⟩], none⟩ =
        SegResult.ok [1, 3] [] ∧
      ¬ (([1, 3] : List ℕ).length < 2) := by decide

/-- Claim C4 (amended): a no-light log with exactly one trigger packet at
index t segments to exactly the two boundaries [t, packet count] — one full
span — and the total-events consumer nevertheless reports 0 events (it shows
len(dividers) - 2). -/
theorem c4_amended (f : DataFile) (t : ℕ)
    (hlight : f.light_trig = none)
    (hone : triggerIndices f.packets = [t]) :
    get_event_dividers f = SegResult.ok [t, f.packets.length] [] ∧
      update_total_events f = Except.ok 0 := by
  have h1 : get_event_dividers f = SegResult.ok [t, f.packets.length] [] := by
    rw [get_event_dividers_noLight f hlight (by rw [hone]; simp)]
    unfold noLightDividers
    rw [hone]
    rfl
  refine ⟨h1, ?_⟩
  unfold update_total_events
  rw [h1]
  rfl

/-- Claim C4 (witness): the amended theorem applied to a 2-packet log whose
single trigger sits at index 1. -/
theorem c4_amended_witness :
    get_event_dividers ⟨[⟨0, 5, 1⟩, ⟨7, 5, 0⟩], none⟩ = SegResult.ok [1, 2] [] ∧
      update_total_events ⟨[⟨0, 5, 1⟩, ⟨7, 5, 0⟩], none⟩ = Except.ok 0 :=
  c4_amended ⟨[⟨0, 5, 1⟩, ⟨7, 5, 0⟩], none⟩ 1 rfl (by decide)

-- ### Claim C5

/-- Claim C5 (counterexample): with boundary table [0, 2, 4] over a 4-packet
log, the event id -2 is negative, yet draw_event silently wraps numpy-style
and returns the packet sub-range (2, 4) of the last event instead of failing
with an out-of-range condition. -/
theorem c5_counterexample :
    draw_event [⟨0, 0, 0⟩, ⟨0, 0, 0⟩, ⟨0, 0, 0⟩, ⟨0, 0, 0⟩] [0, 2, 4] (-2) =
      some (2, 4, [⟨0, 0, 0⟩, ⟨0, 0, 0⟩]) := by decide

-- ### npIndex evaluation lemmas

theorem npIndex_nonneg (l : List ℕ) (i : ℤ) (h0 : 0 ≤ i) (hlt : i < (l.length : ℤ)) :
    npIndex l i = some (l.getD i.toNat 0) := by
  unfold npIndex
  rw [if_pos ⟨h0, hlt⟩]

theorem npIndex_neg (l : List ℕ) (i : ℤ) (h0 : -(l.length : ℤ) ≤ i) (hlt : i < 0) :
    npIndex l i = some (l.getD ((l.length : ℤ) + i).toNat 0) := by
  unfold npIndex
  rw [if_neg (by omega), if_pos ⟨h0, hlt⟩]

theorem npIndex_oob (l : List ℕ) (i : ℤ)
    (h : i < -(l.length : ℤ) ∨ (l.length : ℤ) ≤ i) :
    npIndex l i = none := by
  unfold npIndex
  rw [if_neg (by omega), if_neg (by omega)]

theorem pairwise_getD_lt (d : List ℕ) (hp : d.Pairwise (· < ·)) (i j : ℕ)
    (hij : i < j) (hj : j < d.length) :
    d.getD i 0 < d.getD j 0 := by
  have hi : i < d.length := Nat.lt_trans hij hj
  rw [List.getD_eq_getElem d 0 hi, List.getD_eq_getElem d 0 hj]
  exact List.pairwise_iff_getElem.mp hp i j hi hj hij

-- ### Claim C5 (amended part)

/-- Claim C5 (amended): over a strictly increasing boundary table whose last
entry is the packet count, requesting an event id at or above
len(boundaries) - 1 or below -len(boundaries) fails (none), and so does the
id -1 (its wrapped start index is the sentinel, past the packet log); but an
id between -len(boundaries) and -2 silently wraps numpy-style and returns
the packet sub-range of the event len(boundaries) + id, contrary to the
original claim. -/
theorem c5_amended (packets : List Packet) (dividers : List ℕ) (event_id : ℤ)
    (hp : dividers.Pairwise (· < ·))
    (hlen : 2 ≤ dividers.length)
    (hlast : dividers.getD (dividers.length - 1) 0 = packets.length) :
    ((dividers.length : ℤ) - 1 ≤ event_id → draw_event packets dividers event_id = none) ∧
      (event_id = -1 → draw_event packets dividers event_id = none) ∧
      (event_id < -(dividers.length : ℤ) → draw_event packets dividers event_id = none) ∧
      (-(dividers.length : ℤ) ≤ event_id → event_id ≤ -2 →
        ∃ ps, draw_event packets dividers event_id =
          some (dividers.getD ((dividers.length : ℤ) + event_id).toNat 0,
            dividers.getD ((dividers.length : ℤ) + (event_id + 1)).toNat 0, ps)) := by
  refine ⟨?_, ?_, ?_, ?_⟩
  · intro he
    unfold draw_event
    rw [npIndex_oob dividers (event_id + 1) (by omega)]
    cases npIndex dividers event_id <;> rfl
  · intro he
    subst he
    unfold draw_event
    rw [npIndex_neg dividers (-1) (by omega) (by omega),
      show (-1 : ℤ) + 1 = 0 from rfl,
      npIndex_nonneg dividers 0 (by omega) (by omega)]
    dsimp only
    have ht : (((dividers.length : ℤ)) + -1).toNat = dividers.length - 1 := by omega
    rw [ht, hlast, List.get?_eq_none.mpr (Nat.le_refl packets.length)]
  · intro he
    unfold draw_event
    rw [npIndex_oob dividers event_id (by omega)]
  · intro h1 h2
    unfold draw_event
    rw [npIndex_neg dividers event_id (by omega) (by omega),
      npIndex_neg dividers (event_id + 1) (by omega) (by omega)]
    dsimp only
    have hj : ((dividers.length : ℤ) + event_id).toNat < dividers.length - 1 ∨
        ((dividers.length : ℤ) + event_id).toNat = dividers.length - 1 := by omega
    have hjlt : ((dividers.length : ℤ) + event_id).toNat < dividers.length - 1 := by omega
    have hs : dividers.getD ((dividers.length : ℤ) + event_id).toNat 0 < packets.length := by
      rw [← hlast]
      exact pairwise_getD_lt dividers hp _ _ hjlt (by omega)
    rw [List.get?_eq_get hs]
    exact ⟨_, rfl⟩

-- ### Claim C8

theorem coolSum_eq (packets : List Packet) :
    (((packets.filter (fun p => p.packet_type == 0)).map Packet.dataword).sum : ℤ) =
      coolSum packets := by
  induction packets with
  | nil => rfl
  | cons p rest ih =>
    unfold coolSum
    rw [List.filter_cons]
    by_cases h : p.packet_type = 0
    · rw [if_pos (by simpa using h), if_pos h, List.map_cons, List.sum_cons,
        Nat.cast_add, ih]
    · rw [if_neg (by simpa using h), if_neg h]
      rw [ih]
      simp

/-- Claim C8 (confirmed): is_cool_event returns true iff the dataword sum over
the data-type packets strictly exceeds the threshold, a None threshold being
treated as the default 20000; a sum exactly equal to the threshold is not
cool and a sum one above the threshold is cool. -/
theorem c8_is_cool_event_iff (packets : List Packet) (th : ℤ) :
    (is_cool_event packets (some th) = true ↔ th < coolSum packets) ∧
      (is_cool_event packets none = true ↔ 20000 < coolSum packets) ∧
      is_cool_event packets (some (coolSum packets)) = false ∧
      is_cool_event packets (some (coolSum packets - 1)) = true := by
  have hsum := coolSum_eq packets
  refine ⟨?_, ?_, ?_, ?_⟩ <;>
    simp only [is_cool_event, DEFAULT_COOLNESS_THRESHOLD, Option.getD_some, Option.getD_none,
      decide_eq_true_eq, decide_eq_false_iff_not, gt_iff_lt, hsum] <;>
    omega

/-- Claim C5 (witness): the amended theorem applied to the boundary table
[0, 2, 4] over a 4-packet log, at the overflowing id 5 (fails) and at the
negative id -2 (silently returns the last event's range). -/
theorem c5_amended_witness :
    draw_event [⟨0, 0, 0⟩, ⟨0, 0, 0⟩, ⟨0, 0, 0⟩, ⟨0, 0, 0⟩] [0, 2, 4] 5 = none ∧
      ∃ ps, draw_event [⟨0, 0, 0⟩, ⟨0, 0, 0⟩, ⟨0, 0, 0⟩, ⟨0, 0, 0⟩] [0, 2, 4] (-2) =
        some (([0, 2, 4] : List ℕ).getD (((([0, 2, 4] : List ℕ).length : ℤ) + -2).toNat) 0,
          ([0, 2, 4] : List ℕ).getD (((([0, 2, 4] : List ℕ).length : ℤ) + (-2 + 1)).toNat) 0,
          ps) :=
  ⟨(c5_amended [⟨0, 0, 0⟩, ⟨0, 0, 0⟩, ⟨0, 0, 0⟩, ⟨0, 0, 0⟩] [0, 2, 4] 5 (by decide) (by decide)
      (by decide)).1 (by decide),
    (c5_amended [⟨0, 0, 0⟩, ⟨0, 0, 0⟩, ⟨0, 0, 0⟩, ⟨0, 0, 0⟩] [0, 2, 4] (-2) (by decide)
      (by decide) (by decide)).2.2.2 (by decide) (by decide)⟩

-- ### Claim C9

theorem specExtract_zero : ∀ (l : List Packet) (idx s e : ℕ) (ref : ℤ), e ≤ idx →
    specExtract l idx s e ref = []
  | [], _, _, _, _, _ => rfl
  | p :: rest, idx, s, e, ref, h => by
    unfold specExtract
    rw [if_neg (by rintro ⟨h1, h2, h3⟩; omega),
      specExtract_zero rest (idx + 1) s e ref (by omega)]
    rfl

theorem specExtract_shift : ∀ (l : List Packet) (idx s e : ℕ) (ref : ℤ),
    specExtract l (idx + 1) s e ref = specExtract l idx (s - 1) (e - 1) ref
  | [], _, _, _, _ => rfl
  | p :: rest, idx, s, e, ref => by
    unfold specExtract
    rw [specExtract_shift rest (idx + 1) s e ref,
      if_congr (show (s ≤ idx + 1 ∧ idx + 1 < e ∧ p.timestamp - ref < 2000) ↔
          (s - 1 ≤ idx ∧ idx < e - 1 ∧ p.timestamp - ref < 2000) by
        constructor <;> (rintro ⟨h1, h2, h3⟩; exact ⟨by omega, by omega, h3⟩)) rfl rfl]

theorem slice_filter_eq_specExtract : ∀ (l : List Packet) (s e : ℕ) (ref : ℤ),
    ((l.drop s).take (e - s)).filter (fun p => decide (p.timestamp - ref < 2000)) =
      specExtract l 0 s e ref
  | [], s, e, ref => by
    rw [List.drop_nil, List.take_nil, List.filter_nil]
    rfl
  | p :: rest, 0, e, ref => by
    cases e with
    | zero =>
      rw [List.drop_zero, Nat.sub_zero, List.take_zero, List.filter_nil,
        specExtract_zero (p :: rest) 0 0 0 ref (Nat.le_refl 0)]
    | succ e2 =>
      rw [List.drop_zero, Nat.sub_zero, List.take_succ_cons, List.filter_cons]
      unfold specExtract
      rw [specExtract_shift rest 0 0 (e2 + 1) ref]
      have hrec := slice_filter_eq_specExtract rest 0 e2 ref
      rw [List.drop_zero, Nat.sub_zero] at hrec
      by_cases hts : p.timestamp - ref < 2000
      · rw [if_pos (decide_eq_true hts),
          if_pos (show 0 ≤ 0 ∧ 0 < e2 + 1 ∧ p.timestamp - ref < 2000 from
            ⟨Nat.le_refl 0, Nat.succ_pos e2, hts⟩), hrec]
        rfl
      · rw [if_neg (by simpa using hts),
          if_neg (by rintro ⟨h1, h2, h3⟩; exact hts h3), hrec]
        rfl
  | p :: rest, s2 + 1, e, ref => by
    rw [List.drop_succ_cons]
    unfold specExtract
    rw [if_neg (by rintro ⟨hc, h1, h2⟩; omega), List.nil_append,
      specExtract_shift rest 0 (s2 + 1) e ref]
    have hrec := slice_filter_eq_specExtract rest s2 (e - 1) ref
    rw [show e - 1 - s2 = e - (s2 + 1) by omega] at hrec
    exact hrec

/-- Claim C9 (confirmed): for a valid event id whose range start lies inside
the log, draw_event returns the raw sub-range [dividers[id], dividers[id+1])
together with exactly the packets of that sub-range whose timestamp is
strictly less than 2000 ticks above the first packet's timestamp. -/
theorem c9_draw_event (packets : List Packet) (dividers : List ℕ) (event_id : ℕ)
    (hvalid : event_id + 1 < dividers.length)
    (hstart : dividers.getD event_id 0 < packets.length) :
    draw_event packets dividers (event_id : ℤ) =
      some (dividers.getD event_id 0, dividers.getD (event_id + 1) 0,
        specExtract packets 0 (dividers.getD event_id 0) (dividers.getD (event_id + 1) 0)
          ((packets.get ⟨dividers.getD event_id 0, hstart⟩).timestamp)) := by
  unfold draw_event
  rw [npIndex_nonneg dividers (event_id : ℤ) (by omega) (by omega),
    show ((event_id : ℤ) + 1) = ((event_id + 1 : ℕ) : ℤ) by omega,
    npIndex_nonneg dividers ((event_id + 1 : ℕ) : ℤ) (by omega) (by omega),
    Int.toNat_natCast, Int.toNat_natCast]
  dsimp only
  rw [List.get?_eq_get hstart]
  dsimp only
  unfold pySlice EVENT_BUFFER
  rw [slice_filter_eq_specExtract]

/-- Claim C9 (witness): buffer filtering on packets with timestamps 1000,
1500, 3500 and dividers [0, 3] keeps only the first two packets (3500 lies
2500 ≥ 2000 ticks after the reference 1000). -/
theorem c9_witness :
    draw_event [⟨7, 1000, 0⟩, ⟨0, 1500, 10⟩, ⟨0, 3500, 20⟩] [0, 3] ((0 : ℕ) : ℤ) =
        some (([0, 3] : List ℕ).getD 0 0, ([0, 3] : List ℕ).getD (0 + 1) 0,
          specExtract [⟨7, 1000, 0⟩, ⟨0, 1500, 10⟩, ⟨0, 3500, 20⟩] 0
            (([0, 3] : List ℕ).getD 0 0) (([0, 3] : List ℕ).getD (0 + 1) 0)
            ((([⟨7, 1000, 0⟩, ⟨0, 1500, 10⟩, ⟨0, 3500, 20⟩] : List Packet).get
              ⟨([0, 3] : List ℕ).getD 0 0, by decide⟩).timestamp)) ∧
      specExtract [⟨7, 1000, 0⟩, ⟨0, 1500, 10⟩, ⟨0, 3500, 20⟩] 0 0 3 1000 =
        [⟨7, 1000, 0⟩, ⟨0, 1500, 10⟩] :=
  ⟨c9_draw_event [⟨7, 1000, 0⟩, ⟨0, 1500, 10⟩, ⟨0, 3500, 20⟩] [0, 3] 0 (by decide) (by decide),
    by decide⟩

-- ### Claim C10

theorem ite_cons_append {α : Type} (c : Prop) [inst : Decidable c] (a : α) (l : List α) :
    (if c then a :: l else l) = (if c then [a] else []) ++ l := by
  by_cases h : c <;> simp [h]

theorem pairwise_head_le (l : List ℕ) (hp : l.Pairwise (· < ·)) :
    ∀ x ∈ l, l.getD 0 0 ≤ x := by
  cases l with
  | nil => intro x hx; cases hx
  | cons a rest =>
    intro x hx
    rcases List.mem_cons.mp hx with h1 | h2
    · subst h1; simp
    · simp only [List.getD_cons_zero]
      exact Nat.le_of_lt ((List.pairwise_cons.mp hp).1 x h2)

theorem gapKeep_last_filter : ∀ (tp : List ℕ), tp.Pairwise (· < ·) → tp ≠ [] →
    gapKeep tp ++ [tp.getLastD 0] = tp.filter (fun t => decide ((t + 1) ∉ tp))
  | [], _, h => absurd rfl h
  | [a], _, _ => by
    have hnin : ((a : ℕ) + 1) ∉ [a] := by
      intro hc
      rw [List.mem_singleton] at hc
      omega
    simp [gapKeep, List.getLastD_cons, hnin]
  | a :: b :: rest, hp, _ => by
    have hmem : ∀ t ∈ b :: rest, a < t := (List.pairwise_cons.mp hp).1
    have hab : a < b := hmem b (by simp)
    have hrest : ∀ x ∈ rest, b < x := (List.pairwise_cons.mp hp.tail).1
    have hiff : ((decide ((a + 1) ∉ a :: b :: rest)) = true) ↔ (b ≠ a + 1) := by
      rw [decide_eq_true_eq]
      constructor
      · intro hnin hbeq
        exact hnin (by rw [← hbeq]; exact List.mem_cons_of_mem a (List.mem_cons_self b rest))
      · intro hne hin
        rcases List.mem_cons.mp hin with h1 | h2
        · omega
        · rcases List.mem_cons.mp h2 with h3 | h4
          · exact hne h3.symm
          · have := hrest _ h4
            omega
    rw [List.filter_cons, ite_cons_append, if_congr hiff rfl rfl,
      gapKeep_cons_cons, List.getLastD_cons, getLastD_irrel (b :: rest) (by simp) a 0,
      List.append_assoc, gapKeep_last_filter (b :: rest) hp.tail (by simp)]
    congr 1
    refine List.filter_congr ?_
    intro t ht
    have hat : a < t := hmem t ht
    rw [decide_eq_decide]
    constructor
    · intro hnin hin
      rcases List.mem_cons.mp hin with h1 | h2
      · omega
      · exact hnin h2
    · intro hnin hin
      exact hnin (List.mem_cons_of_mem a hin)

/-- Claim C10 (counterexample): triggers at indices 2, 3, 7 of a 9-packet
no-light log give dividers [3, 7, 9]; trigger 2 is an earlier member of the
contiguous run 2, 3, yet it lies in no event span at all, in particular not
inside a preceding event's span. -/
theorem c10_counterexample :
    get_event_dividers ⟨[⟨0, 0, 0⟩, ⟨0, 0, 0⟩, ⟨7, 0, 0⟩, ⟨7, 0, 0⟩, ⟨0, 0, 0⟩, ⟨0, 0, 0⟩,
        ⟨0, 0, 0⟩, ⟨7, 0, 0⟩, ⟨0, 0, 0⟩], none⟩ = SegResult.ok [3, 7, 9] [] ∧
      2 ∈ triggerIndices [⟨0, 0, 0⟩, ⟨0, 0, 0⟩, ⟨7, 0, 0⟩, ⟨7, 0, 0⟩, ⟨0, 0, 0⟩, ⟨0, 0, 0⟩,
        ⟨0, 0, 0⟩, ⟨7, 0, 0⟩, ⟨0, 0, 0⟩] ∧
      3 ∈ triggerIndices [⟨0, 0, 0⟩, ⟨0, 0, 0⟩, ⟨7, 0, 0⟩, ⟨7, 0, 0⟩, ⟨0, 0, 0⟩, ⟨0, 0, 0⟩,
        ⟨0, 0, 0⟩, ⟨7, 0, 0⟩, ⟨0, 0, 0⟩] ∧
      coveredCount [3, 7, 9] 2 = 0 := by decide

/-- Claim C10 (amended): in the no-light branch the dividers before the final
sentinel are exactly the trigger indices whose successor index is not a
trigger — the last trigger of each contiguous run; earlier run members are
never boundaries, and those of the first run lie below every event span. -/
theorem c10_amended (f : DataFile) (ic il : List ℕ)
    (hlight : f.light_trig = none)
    (hne : triggerIndices f.packets ≠ [])
    (hok : get_event_dividers f = SegResult.ok ic il) :
    ic = (triggerIndices f.packets).filter
        (fun t => decide ((t + 1) ∉ triggerIndices f.packets)) ++ [f.packets.length] ∧
      ∀ t ∈ triggerIndices f.packets, t < ic.getD 0 0 → coveredCount ic t = 0 := by
  rw [get_event_dividers_noLight f hlight hne] at hok
  injection hok with h1 h2
  subst h1
  constructor
  · unfold noLightDividers
    rw [show gapKeep (triggerIndices f.packets) ++
          [(triggerIndices f.packets).getLastD 0, f.packets.length] =
        (gapKeep (triggerIndices f.packets) ++ [(triggerIndices f.packets).getLastD 0]) ++
          [f.packets.length] by simp,
      gapKeep_last_filter _ (triggerIndices_pairwise f.packets) hne]
  · intro t ht hlt
    exact coveredCount_eq_zero _ t (fun x hx =>
      Nat.lt_of_lt_of_le hlt (pairwise_head_le _ (noLightDividers_pairwise f.packets hne) x hx))

/-- Claim C10 (witness): the amended theorem applied to a log whose triggers
0 and 1 form one contiguous run: the divider before the sentinel is the run's
last trigger 1, and the earlier trigger 0 lies below every span. -/
theorem c10_amended_witness :
    ([1, 3] : List ℕ) = (triggerIndices [⟨7, 0, 0⟩, ⟨7, 0, 0⟩, ⟨0, 0, 0⟩]).filter
        (fun t => decide ((t + 1) ∉ triggerIndices [⟨7, 0, 0⟩, ⟨7, 0, 0⟩, ⟨0, 0, 0⟩])) ++ [3] ∧
      ∀ t ∈ triggerIndices [⟨7, 0, 0⟩, ⟨7, 0, 0⟩, ⟨0, 0, 0⟩],
        t < ([1, 3] : List ℕ).getD 0 0 → coveredCount [1, 3] t = 0 :=
  c10_amended ⟨[⟨7, 0, 0⟩, ⟨7, 0, 0⟩, ⟨0, 0, 0⟩], none⟩ [1, 3] [] rfl (by decide) (by decide)

-- ### Claim C6

theorem mem_pyRange_up (start stop i : ℤ) (h : i ∈ pyRange start stop 1) :
    start ≤ i ∧ i < stop := by
  unfold pyRange at h
  rw [if_pos rfl] at h
  obtain ⟨k, hk, hik⟩ := List.mem_map.mp h
  rw [List.mem_range] at hk
  omega

theorem mem_pyRange_down (start stop i : ℤ) (h : i ∈ pyRange start stop (-1)) :
    stop < i ∧ i ≤ start := by
  unfold pyRange at h
  rw [if_neg (by omega), if_pos rfl] at h
  obtain ⟨k, hk, hik⟩ := List.mem_map.mp h
  rw [List.mem_range] at hk
  omega

theorem findLoop_spec (packets : List Packet) (dividers : List ℕ) (threshold : Option ℤ) :
    ∀ (l : List ℤ), (∀ i ∈ l, 0 ≤ i ∧ i + 1 < (dividers.length : ℤ)) →
      findLoop packets dividers threshold l =
        Except.ok (l.find? (fun i =>
          is_cool_event (packetsOfEvent packets dividers i.toNat) threshold))
  | [], _ => rfl
  | i :: rest, h => by
    have hi := h i (by simp)
    unfold findLoop
    rw [npIndex_nonneg dividers i (by omega) (by omega),
      npIndex_nonneg dividers (i + 1) (by omega) (by omega)]
    dsimp only
    have ht : (i + 1).toNat = i.toNat + 1 := by omega
    rw [ht]
    by_cases hc : is_cool_event (pySlice packets (dividers.getD i.toNat 0)
        (dividers.getD (i.toNat + 1) 0)) threshold = true
    · rw [if_pos hc, List.find?_cons_of_pos _ (by unfold packetsOfEvent; exact hc)]
    · rw [if_neg hc, List.find?_cons_of_neg _ (by unfold packetsOfEvent; simpa using hc),
        findLoop_spec packets dividers threshold rest
          (fun j hj => h j (List.mem_cons_of_mem i hj))]

/-- Claim C6 (confirmed): over any boundary table, find_cool_event with
direction +1 (from any start id ≥ -1) or direction -1 (from any start id at
most len(dividers) - 1) scans event ids from event_id + direction toward the
respective array end and returns the first scanned id whose packet slice
satisfies the coolness predicate, or the no-op signal none when no scanned
event does. -/
theorem c6_find_cool_event (packets : List Packet) (dividers il : List ℕ)
    (event_id : ℤ) (threshold : Option ℤ) (direction : ℤ)
    (hdir : (direction = 1 ∧ -1 ≤ event_id) ∨
      (direction = -1 ∧ event_id ≤ (dividers.length : ℤ) - 1)) :
    find_cool_event packets (SegResult.ok dividers il) event_id threshold direction =
      Except.ok (findEventSpec packets dividers event_id threshold direction) := by
  unfold find_cool_event findEventSpec
  rcases hdir with ⟨hd, hid⟩ | ⟨hd, hid⟩
  · subst hd
    rw [if_neg (by omega)]
    apply findLoop_spec
    intro i hi
    have := mem_pyRange_up (event_id + 1) ((dividers.length : ℤ) - 1) i hi
    omega
  · subst hd
    rw [if_pos rfl]
    apply findLoop_spec
    intro i hi
    have := mem_pyRange_down (event_id + -1) (-1) i hi
    omega

/-- Claim C6 (witness): scanning forward from event 0 over dividers
[0, 1, 2, 3] with the default threshold finds event 2 (dataword sum 25000),
skipping the non-cool event 1. -/
theorem c6_witness :
    find_cool_event [⟨0, 0, 30000⟩, ⟨0, 0, 0⟩, ⟨0, 0, 25000⟩] (SegResult.ok [0, 1, 2, 3] [])
        0 none 1 =
      Except.ok (findEventSpec [⟨0, 0, 30000⟩, ⟨0, 0, 0⟩, ⟨0, 0, 25000⟩] [0, 1, 2, 3]
        0 none 1) ∧
      findEventSpec [⟨0, 0, 30000⟩, ⟨0, 0, 0⟩, ⟨0, 0, 25000⟩] [0, 1, 2, 3] 0 none 1 =
        some 2 :=
  ⟨c6_find_cool_event [⟨0, 0, 30000⟩, ⟨0, 0, 0⟩, ⟨0, 0, 25000⟩] [0, 1, 2, 3] [] 0 none 1
      (Or.inl ⟨rfl, by omega⟩),
    by decide⟩

-- ### Claim C7

theorem mergeFile_dividers (g : ℤ) (hg : 1 ≤ g) :
    get_event_dividers (mergeFile g) =
      if 200 < g then SegResult.ok [0, 2, 4] [0, 1, 2] else SegResult.ok [0, 4] [0, 2] := by
  have hne2 : ¬((1000 : ℤ) = 1000 + g) := by omega
  have hle : (1000 : ℤ) ≤ 1000 + g := by omega
  have hfil : ([1000, 1000 + g] : List ℤ).filter (fun v => decide (v ∈ [1000, 1000 + g])) =
      [1000, 1000 + g] := by
    rw [List.filter_cons, List.filter_cons, List.filter_nil, if_pos (by simp), if_pos (by simp)]
  have hdedup : ([1000, 1000 + g] : List ℤ).dedup = [1000, 1000 + g] := by
    rw [List.dedup_cons_of_not_mem (by simp [hne2])]
    simp
  have hsort : (([1000, 1000 + g] : List ℤ).insertionSort (· ≤ ·)) = [1000, 1000 + g] := by
    simp [List.insertionSort, List.orderedInsert, hle]
  have hidx1 : ([1000, 1000 + g] : List ℤ).findIdx (fun x => x == 1000) = 0 := by
    rw [List.findIdx_cons]
    simp
  have hidx2 : ([1000, 1000 + g] : List ℤ).findIdx (fun x => x == 1000 + g) = 1 := by
    rw [List.findIdx_cons]
    have hbeq : ((1000 : ℤ) == 1000 + g) = false := by
      simp [hne2]
    rw [hbeq]
    simp [List.findIdx_cons]
  have hinter : intersect1d [1000, 1000 + g] [1000, 1000 + g] =
      [(1000, 0, 0), (1000 + g, 1, 1)] := by
    unfold intersect1d
    rw [hfil, hdedup, hsort]
    simp only [List.map_cons, List.map_nil]
    rw [hidx1, hidx2]
  have hsorted : sortedTriples (mergeFile g).packets [1000, 1000 + g] =
      [(1000, 0, 0), (1000 + g, 1, 2)] := by
    unfold sortedTriples
    rw [show trigTimestamps (mergeFile g).packets = [1000, 1000 + g] from rfl, hinter]
    rfl
  have hlight : lightDividers (mergeFile g).packets [1000, 1000 + g] =
      SegResult.ok (maskFilter [0, 2] [true, decide ((1000 + g) - 1000 > 200)] ++ [4])
        (maskFilter [0, 1] [true, decide ((1000 + g) - 1000 > 200)] ++ [2]) := by
    unfold lightDividers
    rw [hsorted]
    rfl
  have hgt : get_event_dividers (mergeFile g) =
      lightDividers (mergeFile g).packets [1000, 1000 + g] := by
    unfold get_event_dividers
    rw [if_neg (by rw [show triggerIndices (mergeFile g).packets = [0, 2] from rfl]; simp)]
    rfl
  rw [hgt, hlight]
  by_cases hcase : 200 < g
  · rw [if_pos hcase]
    have hd : decide ((1000 + g) - 1000 > 200) = true := by
      rw [decide_eq_true_eq]
      omega
    rw [hd]
    rfl
  · rw [if_neg hcase]
    have hd : decide ((1000 + g) - 1000 > 200) = false := by
      rw [decide_eq_false_iff_not]
      omega
    rw [hd]
    rfl

/-- Claim C7 (confirmed): in the light branch, for the two-matched-light-
trigger family with sync-timestamp gap g ≥ 1, a gap of at most 200 ticks
merges both light triggers into a single event (boundaries [0, 4] and
[0, 2]), while a gap of 201 ticks or more starts a new event boundary
(boundaries [0, 2, 4] and [0, 1, 2]). -/
theorem c7_merge_threshold (g : ℤ) (hg : 1 ≤ g) :
    (g ≤ 200 → get_event_dividers (mergeFile g) = SegResult.ok [0, 4] [0, 2]) ∧
      (201 ≤ g → get_event_dividers (mergeFile g) = SegResult.ok [0, 2, 4] [0, 1, 2]) := by
  constructor
  · intro h
    rw [mergeFile_dividers g hg, if_neg (by omega)]
  · intro h
    rw [mergeFile_dividers g hg, if_pos (by omega)]

/-- Claim C7 (witness): at a gap of exactly 200 ticks the two light triggers
merge into one event; at 201 ticks they split into two. -/
theorem c7_witness :
    get_event_dividers (mergeFile 200) = SegResult.ok [0, 4] [0, 2] ∧
      get_event_dividers (mergeFile 201) = SegResult.ok [0, 2, 4] [0, 1, 2] :=
  ⟨(c7_merge_threshold 200 (by omega)).1 (by omega),
    (c7_merge_threshold 201 (by omega)).2 (by omega)⟩
